import Mathlib

/-!
Verification development for the everywox ranking engine
(src/search.py, src/const.py): a shallow embedding of the query
normalizer, the distance cache helpers, the scoring engine, the
file-identity deduplication and the top-K selection, together with
theorems settling the frozen claims about them.

Modelling conventions:
* Python strings are Lean `String`s; most primitives are re-implemented
  over `List Char` so that every definition reduces inside the kernel.
* Python floats are modelled as exact rationals (`ℚ`) where the source
  arithmetic is rational, and as real numbers (`ℝ`) where the source
  takes square roots; float rounding is not modelled.
* Python exceptions that can escape a function are modelled with
  `Except PyErr`; an exception suppressed in the source (the
  `ZeroDivisionError` inside `distance_relative`) is modelled by the
  value the handler produces.
* External collaborators (the Everything index, the fuzzywuzzy token
  scorer, `os.stat`) are oracle parameters: `provider`, `tokenRatio`,
  `stat`.
-/

namespace Everywox

/-- Exceptions that can escape the modelled code paths. -/
inductive PyErr where
  | zeroDivisionError : PyErr
  | keyError : PyErr
deriving DecidableEq

/-! ## Constants (src/const.py) -/

/-- MIN_QUERY_LENGTH from const.py. -/
def MIN_QUERY_LENGTH : Nat := 1

/-- MAX_MISSING_LETTERS from const.py. -/
def MAX_MISSING_LETTERS : Nat := 1

/-- MAX_RESULTS_COUNT from const.py. -/
def MAX_RESULTS_COUNT : Nat := 15

/-- ENABLED_EXTENSIONS from const.py. -/
def ENABLED_EXTENSIONS : List String := ["exe", "bat", "cmd", "lnk", "chm", "cpl"]

/-- WINDOWS_SXS_REPOSITORY from const.py; the value is derived from the
WINDIR environment variable at import time, modelled with the standard
Windows value. -/
def WINDOWS_SXS_REPOSITORY : String := "c:\\windows\\winsxs"

/-- WINDOWS_CONTAINERS_LAYERS from const.py; derived from the
ALLUSERSPROFILE environment variable at import time, modelled with the
standard Windows value. -/
def WINDOWS_CONTAINERS_LAYERS : String :=
  "c:\\programdata\\microsoft\\windows\\containers\\layers"

/-! ## Keyboard transliteration (class Keyboard in const.py) -/

/-- Keyboard.RU: the Cyrillic alphabet string, already lowercased in the
source (`'ЙЦУКЕНГШЩЗФЫВАПРОЛДЯЧСМИТЬ'.lower()`). -/
def ruLower : List Char := "йцукенгшщзфывапролдячсмить".toList

/-- The uppercase forms of Keyboard.RU, matched by the source's regexes
because they carry the ignore-case flag `(?ui)`. -/
def ruUpper : List Char := "ЙЦУКЕНГШЩЗФЫВАПРОЛДЯЧСМИТЬ".toList

/-- Keyboard.EN: `'QWERTYUIOPASDFGHJKLZXCVBNM'.lower()`. -/
def enLower : List Char := "qwertyuiopasdfghjklzxcvbnm".toList

/-- Keyboard.MAP: `dict(zip(RU, EN))`, keyed by lowercase Cyrillic only. -/
def keyboardMap (c : Char) : Option Char :=
  (ruLower.zip enLower).lookup c

/-- Keyboard.IsCyrillic: `WORD.match(query)` where WORD is
`(?ui)^([RU]+)$` — nonempty and every character a Cyrillic letter of the
table, either case (the regex is case-insensitive). -/
def IsCyrillic (q : String) : Bool :=
  !q.toList.isEmpty && q.toList.all (fun c => ruLower.contains c || ruUpper.contains c)

/-- One character of Keyboard.Translate: the CHAR regex matches a
Cyrillic letter of either case, and the substitution looks the matched
character up in MAP, whose keys are lowercase only — an uppercase
Cyrillic character therefore raises KeyError (modelled as none). -/
def translateChar (c : Char) : Option Char :=
  if ruLower.contains c then keyboardMap c
  else if ruUpper.contains c then none
  else some c

/-- Keyboard.Translate: `CHAR.sub(lambda x: MAP[x.group(1)], query)`
character by character; none models the KeyError escaping the lambda. -/
def Translate (q : String) : Option String :=
  (q.toList.mapM translateChar).map String.mk

/-! ## Query normalization (first lines of call_dll_search) -/

/-- Whitespace as matched by Python's str.strip and the regex class \s,
restricted to the ASCII whitespace characters. -/
def isSpaceChar (c : Char) : Bool :=
  c = ' ' || c = '\t' || c = '\n' || c = '\x0d' || c = '\x0b' || c = '\x0c'

/-- Python str.lower, modelled character-wise for the ASCII and the
Cyrillic alphabet used by the keyboard table. -/
def lowerChar (c : Char) : Char :=
  if 'A' ≤ c ∧ c ≤ 'Z' then Char.ofNat (c.toNat + 32)
  else ((ruUpper.zip ruLower).lookup c).getD c

/-- Python str.lower over a whole string. -/
def lowerStr (s : String) : String :=
  String.mk (s.toList.map lowerChar)

/-- Python str.strip: drop leading and trailing whitespace. -/
def stripChars (l : List Char) : List Char :=
  ((l.dropWhile isSpaceChar).reverse.dropWhile isSpaceChar).reverse

/-- The regex substitution `re.sub(r'(\s+)', ' ', ...)`: every maximal
run of whitespace becomes a single space. The Boolean flag records
whether the previous character belonged to a whitespace run. -/
def collapseWsAux : Bool → List Char → List Char
  | _, [] => []
  | inSpace, c :: rest =>
    if isSpaceChar c then
      if inSpace then collapseWsAux true rest
      else ' ' :: collapseWsAux true rest
    else c :: collapseWsAux false rest

/-- Collapse every maximal whitespace run to one space. -/
def collapseWs (l : List Char) : List Char :=
  collapseWsAux false l

/-- The normalization at the top of call_dll_search:
`re.sub(r'(\s+)', ' ', query.strip().lower())`. -/
def normalize_query (q : String) : String :=
  String.mk (collapseWs (stripChars (lowerStr q).toList))

/-! ## Distance cache (distance, distance_relative) -/

/-- Damerau-Levenshtein edit distance over character lists: insertions,
deletions, substitutions and adjacent transpositions, by the standard
recurrence. The source calls jellyfish.damerau_levenshtein_distance, an
external dependency; the spec's glossary describes exactly this edit
distance. No settled claim depends on the value beyond identical and
empty operands, where every Damerau-Levenshtein variant agrees. -/
def dl : List Char → List Char → Nat
  | [], ys => ys.length
  | x :: xs, [] => (x :: xs).length
  | x :: xs, y :: ys =>
    let del := dl xs (y :: ys) + 1
    let ins := dl (x :: xs) ys + 1
    let sub := dl xs ys + (if x = y then 0 else 1)
    let base := min (min del ins) sub
    match xs, ys with
    | x2 :: xs2, y2 :: ys2 =>
      if x = y2 ∧ y = x2 then min base (dl xs2 ys2 + 1) else base
    | _, _ => base
termination_by xs ys => xs.length + ys.length
decreasing_by
  all_goals simp_arith [List.length]

/-- distance from src/search.py (the memoized wrapper around the edit
distance; memoization is behaviourally invisible). -/
def distance (x y : String) : Nat :=
  dl x.toList y.toList

/-- distance_relative from src/search.py:
`distance(x, y) / float(min(len(x), len(y)))` with ZeroDivisionError
suppressed to 0.0. -/
def distance_relative (x y : String) : ℚ :=
  if min x.length y.length = 0 then 0
  else (distance x y : ℚ) / (min x.length y.length : ℚ)

/-! ## Character-set helpers -/

/-- The body of the unique generator from src/search.py: first
occurrences, in order, tracking a seen set. -/
def uniqueAux : List Char → List Char → List Char
  | [], _ => []
  | c :: rest, seen =>
    if seen.contains c then uniqueAux rest seen
    else c :: uniqueAux rest (c :: seen)

/-- get_used_chars from src/search.py: the distinct characters of a
string in first-occurrence order, joined back into a string. -/
def get_used_chars (s : String) : String :=
  String.mk (uniqueAux s.toList [])

/-- count_missing_letters from src/search.py:
`len(set(term)) - len(set(term) & set(base))`, the number of distinct
characters of term that do not occur in base. -/
def count_missing_letters (term base : String) : Nat :=
  ((uniqueAux term.toList []).filter (fun c => !base.toList.contains c)).length

/-- same_start_bonus from src/search.py: the first index where term and
base differ (an IndexError on base returns the index reached), or
len(term) when the loop completes — the common-prefix length capped by
both lengths. -/
def same_start_bonus_aux : List Char → List Char → Nat
  | x :: xs, y :: ys => if x = y then same_start_bonus_aux xs ys + 1 else 0
  | _, _ => 0

/-- same_start_bonus on strings. -/
def same_start_bonus (term base : String) : Nat :=
  same_start_bonus_aux term.toList base.toList

/-- count_missing_chars_count from src/search.py:
`(len(set(term)) - len(set(term) & set(base))) / len(term)`. The source
would raise ZeroDivisionError on an empty term; the scoring pipeline only
calls it with the query, which the length gate guarantees nonempty, so
the Lean convention q / 0 = 0 is never exercised on a reachable path. -/
def count_missing_chars_count (term base : String) : ℚ :=
  (count_missing_letters term base : ℚ) / (term.length : ℚ)

/-! ## Path helpers -/

/-- True on path separators, the characters ntpath treats as component
breaks in the paths the engine sees. -/
def isSep (c : Char) : Bool := c = '\\' || c = '/'

/-- os.path.basename: the final path component (drive-relative corner
cases without separators are not exercised by the engine). -/
def basename (path : String) : String :=
  String.mk (path.toList.reverse.takeWhile (fun c => !isSep c)).reverse

/-- get_extension from src/search.py: walk the path backwards collecting
characters until a dot or separator; if no such break occurred the whole
string was collected and the extension is empty, otherwise the collected
run (lowercased). -/
def get_extension (path : String) : String :=
  let collected := path.toList.reverse.takeWhile (fun c => !(c = '.' || isSep c))
  if collected.length = path.length then ""
  else lowerStr (String.mk collected.reverse)

/-- List-level prefix test modelling Python str.startswith. -/
def startsWithAux : List Char → List Char → Bool
  | _, [] => true
  | [], _ :: _ => false
  | c :: cs, p :: ps => c = p && startsWithAux cs ps

/-- Python str.startswith on strings. -/
def startsWithPy (s pre : String) : Bool :=
  startsWithAux s.toList pre.toList

/-- its_ignored_path from src/search.py: reject paths under the two
excluded directory prefixes, then reject extensions outside the
allow-list. -/
def its_ignored_path (path : String) : Bool :=
  let lowered := lowerStr path
  if startsWithPy lowered WINDOWS_SXS_REPOSITORY
      || startsWithPy lowered WINDOWS_CONTAINERS_LAYERS then true
  else !ENABLED_EXTENSIONS.contains (get_extension lowered)

/-- The stem computed at the top of the scoring loop in
precompute_scores: `word[:-len(ext)-1]` when the word has an extension,
else the word itself. -/
def stemOfWord (word : String) : String :=
  let ext := get_extension word
  if ext = "" then word
  else String.mk (word.toList.take (word.length - ext.length - 1))

/-! ## Subsequence density (subsequence_match) -/

/-- The greedy left-to-right scan inside subsequence_match: walk the
stem, consuming query characters in order; returns the matched stem
positions and the unconsumed remainder of the query. -/
def subseqScan : List Char → List Char → Nat → List Nat × List Char
  | [], q, _ => ([], q)
  | c :: rest, q, i =>
    match q with
    | [] => ([], [])
    | qc :: qrest =>
      if c = qc then
        let r := subseqScan rest qrest (i + 1)
        (i :: r.1, r.2)
      else subseqScan rest (qc :: qrest) (i + 1)

/-- Whether the greedy scan consumes the whole query (every character of
the query appears in the stem in order). -/
def greedy_subsequence (query stem : String) : Bool :=
  (subseqScan stem.toList query.toList 0).2.isEmpty

/-- subsequence_match from src/search.py. Zero for an empty query and
when the greedy scan leaves query characters unmatched; otherwise the
average-gap density 1/(1 + 0.1*avgGap), a 1.2 start bonus when the first
match is at position 0, and the length-coverage factor
0.5 + 0.5*len(query)/len(stem). -/
def subsequence_match (query stem : String) : ℚ :=
  if query.toList.isEmpty then 0
  else
    let scan := subseqScan stem.toList query.toList 0
    if !scan.2.isEmpty then 0
    else
      let pos := scan.1
      let density : ℚ :=
        if pos.length < 2 then 1
        else
          let gaps := (pos.zip pos.tail).map (fun p => ((p.2 : ℚ) - (p.1 : ℚ)))
          let avg_gap := gaps.sum / (gaps.length : ℚ)
          1 / (1 + avg_gap * (1 / 10))
      let start_bonus : ℚ := if pos.head? = some 0 then 6 / 5 else 1
      let length_ratio : ℚ := (query.length : ℚ) / (stem.length : ℚ)
      density * start_bonus * (1 / 2 + length_ratio * (1 / 2))

/-! ## Scoring engine (precompute_scores) -/

/-- sort_by_length_delta from precompute_scores:
`abs(len(query) - len(x))`. -/
def lengthDelta (query word : String) : Nat :=
  ((query.length : Int) - (word.length : Int)).natAbs

/-- Python str.take for the slice `stem[:length]`. -/
def strTake (s : String) (n : Nat) : String :=
  String.mk (s.toList.take n)

/-- The score of one word in the loop body of precompute_scores, after
the missing-letter gate has passed: the exact/prefix multiplier, the two
distance damping terms, the two subsequence-density terms, the
prefix-distance and missing-ratio dampers, the common-head divisor, and
finally the division by tokenRatio/100 — which raises ZeroDivisionError
(error) when the external token ratio is 0. -/
noncomputable def word_rate (query chars word : String) (ratioW : Nat) : Except PyErr ℝ :=
  let stem := stemOfWord word
  let base := get_used_chars stem
  let rate0 : ℝ := if stem = query then 20 else if startsWithPy stem query then 5 else 1
  let by_match : ℚ := (distance query stem : ℚ) * distance_relative query stem
  let r1 : ℝ := rate0 / (Real.sqrt (1 + (by_match : ℝ)) + 1)
  let by_chars : ℚ := (distance chars base : ℚ) * distance_relative chars base
  let r2 : ℝ := r1 / (Real.sqrt (1 + (by_chars : ℝ)) + 1)
  let r3 : ℝ := r2 * ((subsequence_match query stem + subsequence_match chars base : ℚ) : ℝ)
  let r4 : ℝ := r3 / (Real.sqrt (1 + (by_chars : ℝ)) * Real.sqrt (1 + (by_match : ℝ)))
  let r5 : ℝ := r4 / Real.sqrt (1 + (distance query (strTake stem query.length) : ℝ))
  let r6 : ℝ := r5 / Real.sqrt (1 + (count_missing_chars_count query stem : ℝ))
  let r7 : ℝ := r6 / (1 + (same_start_bonus query stem : ℝ))
  if ratioW = 0 then Except.error PyErr.zeroDivisionError
  else Except.ok (r7 / ((ratioW : ℝ) / 100))

/-- The loop of precompute_scores over the delta-sorted words: skip a
word whose stem trips the missing-letter gate, propagate the
ZeroDivisionError of word_rate, drop words whose rate falls at or below
the 0.001 floor, and collect the survivors in iteration order. -/
noncomputable def precompute_go (query chars : String) (tokenRatio : String → Nat) :
    List String → Except PyErr (List (String × ℝ))
  | [] => Except.ok []
  | word :: rest =>
    if MAX_MISSING_LETTERS < count_missing_letters query (stemOfWord word) then
      precompute_go query chars tokenRatio rest
    else
      match word_rate query chars word (tokenRatio word) with
      | Except.error e => Except.error e
      | Except.ok rate =>
        if rate ≤ (1 / 1000 : ℝ) then precompute_go query chars tokenRatio rest
        else (precompute_go query chars tokenRatio rest).map (fun res => (word, rate) :: res)

/-- precompute_scores from src/search.py. The candidate group is an
association list preserving the provider's insertion order; the words
are visited stable-sorted by length delta, as Python's sorted does. The
fuzzywuzzy ratio dict (process.extract over all words with
fuzz.token_sort_ratio) is the external oracle tokenRatio; extract with
limit=len(order) scores every word, so the .get(word, 1) default never
fires. -/
noncomputable def precompute_scores (query : String)
    (order : List (String × List (String × Nat))) (tokenRatio : String → Nat) :
    Except PyErr (List (String × ℝ)) :=
  let chars := get_used_chars query
  let words := (order.map Prod.fst).insertionSort
    (fun a b => lengthDelta query a ≤ lengthDelta query b)
  precompute_go query chars tokenRatio words

/-! ## Answers and the deduplication pipeline (postprocess_scoring) -/

/-- Answer from src/search.py: the final output unit. -/
structure Answer where
  path : String
  dir : String
  stem : String
  runs : Nat
  score : ℝ

/-- pathlib Path.parent rendered as a string: everything before the
final component, or the relative-dot for a bare name. -/
def parent_dir (path : String) : String :=
  if basename path = path then "."
  else String.mk (path.toList.take (path.length - (basename path).length - 1))

/-- pathlib Path.stem: the final component without its last suffix; a
lone leading dot does not start a suffix. -/
def path_stem (path : String) : String :=
  let name := basename path
  match name.toList.reverse.dropWhile (fun c => !(c = '.')) with
  | [] => name
  | _ :: rest => if rest.isEmpty then name else String.mk rest.reverse

/-- First-match association-list lookup, modelling Python dict access
over insertion-ordered pairs. -/
def alookup {α β : Type} [DecidableEq α] : List (α × β) → α → Option β
  | [], _ => none
  | (k0, b) :: rest, k => if k0 = k then some b else alookup rest k

/-- defaultdict(list) append for the mapping of identities to paths:
append to the entry of the key, or create the entry at the end. -/
def addPath : List ((Nat × Nat) × List String) → (Nat × Nat) → String →
    List ((Nat × Nat) × List String)
  | [], k, p => [(k, [p])]
  | (k0, ps) :: rest, k, p =>
    if k0 = k then (k0, ps ++ [p]) :: rest else (k0, ps) :: addPath rest k p

/-- The three dictionaries built by the loop of postprocess_scoring:
mapping (identity to all its paths), runstat (identity to the first-seen
run count) and scoring (identity to the combined weight). -/
structure Groups where
  mapping : List ((Nat × Nat) × List String)
  runstat : List ((Nat × Nat) × Nat)
  scoring : List ((Nat × Nat) × ℝ)

/-- One iteration of the inner loop of postprocess_scoring for a
candidate (path, runs) of a stem with the given score: stat the path
(none models a stat failure, silently skipped), record the path under
its (inode, device) identity, and on the first encounter of an identity
record the run count and the weight sqrt(runs+1)*sqrt(score+1). -/
noncomputable def gStep (stat : String → Option (Nat × Nat)) (g : Groups)
    (v : String × Nat × ℝ) : Groups :=
  match stat v.1 with
  | none => g
  | some key =>
    let m := addPath g.mapping key v.1
    match alookup g.scoring key with
    | some _ => { g with mapping := m }
    | none =>
      { mapping := m,
        runstat := g.runstat ++ [(key, v.2.1)],
        scoring := g.scoring ++ [(key, Real.sqrt ((v.2.1 : ℝ) + 1) * Real.sqrt (v.2.2 + 1))] }

/-- The nested loops of postprocess_scoring: over the scored stems in
order, and over each stem's candidates in order. -/
noncomputable def gather (stat : String → Option (Nat × Nat))
    (order : List (String × List (String × Nat))) (scores : List (String × ℝ)) : Groups :=
  scores.foldl
    (fun g ss => ((alookup order ss.1).getD []).foldl
      (fun g2 pr => gStep stat g2 (pr.1, pr.2, ss.2)) g)
    ⟨[], [], []⟩

/-- The candidate visits of the nested loops of postprocess_scoring,
flattened in iteration order: (path, runs, stem score). -/
def visits (order : List (String × List (String × Nat))) :
    List (String × ℝ) → List (String × Nat × ℝ)
  | [] => []
  | ss :: rest =>
    ((alookup order ss.1).getD []).map (fun pr => (pr.1, pr.2, ss.2)) ++ visits order rest

/-- gather, expressed as a single fold over the flattened visit list. -/
noncomputable def gatherFlat (stat : String → Option (Nat × Nat))
    (vs : List (String × Nat × ℝ)) : Groups :=
  vs.foldl (gStep stat) ⟨[], [], []⟩

/-- Whether a visit resolves to the given file identity. -/
def visitMatches (stat : String → Option (Nat × Nat)) (k : Nat × Nat)
    (v : String × Nat × ℝ) : Bool :=
  stat v.1 = some k

/-- All paths of an identity, in visit order — the list mapping[k] holds
at the end of the loop. -/
def pathsOf (stat : String → Option (Nat × Nat)) (vs : List (String × Nat × ℝ))
    (k : Nat × Nat) : List String :=
  (vs.filter (visitMatches stat k)).map (fun v => v.1)

/-- The first visit that resolves to the given identity — the one whose
run count and stem score the loop retains. -/
def firstVisit (stat : String → Option (Nat × Nat)) (vs : List (String × Nat × ℝ))
    (k : Nat × Nat) : Option (String × Nat × ℝ) :=
  vs.find? (visitMatches stat k)

/-- Descending-weight order on scoring entries, the sort key of
Counter.most_common. -/
def weightGE (a b : (Nat × Nat) × ℝ) : Prop := b.2 ≤ a.2

noncomputable instance : DecidableRel weightGE := fun a b => Real.decidableLE b.2 a.2

instance : IsTotal ((Nat × Nat) × ℝ) weightGE := ⟨fun a b => le_total b.2 a.2⟩

instance : IsTrans ((Nat × Nat) × ℝ) weightGE := ⟨fun _ _ _ h1 h2 => le_trans h2 h1⟩

/-- Counter.most_common(n): the entries sorted by descending value,
truncated to n. Ties keep a stable order in Python; no settled claim
depends on the tie order. -/
noncomputable def most_common (n : Nat) (l : List ((Nat × Nat) × ℝ)) :
    List ((Nat × Nat) × ℝ) :=
  (l.insertionSort weightGE).take n

/-- The shortest path of a duplicate group:
sorted(mapping[key], key=len)[0] — the first among the minimal-length
paths. -/
def shortest (l : List String) : String :=
  l.foldl (fun acc s => if s.length < acc.length then s else acc) (l.headD "")

/-- postprocess_scoring from src/search.py: group the surviving
candidates by file identity, then emit an Answer for each of the
MAX_RESULTS_COUNT heaviest identities, displaying the shortest path of
the group and the retained run count and weight. -/
noncomputable def postprocess_scoring (stat : String → Option (Nat × Nat))
    (order : List (String × List (String × Nat))) (scores : List (String × ℝ)) :
    List Answer :=
  let g := gather stat order scores
  (most_common MAX_RESULTS_COUNT g.scoring).map (fun ks =>
    let path := shortest ((alookup g.mapping ks.1).getD [])
    { path := path, dir := parent_dir path, stem := path_stem path,
      runs := (alookup g.runstat ks.1).getD 0, score := ks.2 })

/-! ## The provider call and the public entry point -/

/-- Python str.split(' ') (single-space separator, keeping empties). -/
def splitOnSpace : List Char → List Char → List (List Char)
  | [], cur => [cur.reverse]
  | c :: rest, cur =>
    if c = ' ' then cur.reverse :: splitOnSpace rest [] else splitOnSpace rest (c :: cur)

/-- The glob term of call_dll_search:
a wildcard between every character and between words. -/
def make_term (q : String) : String :=
  String.mk (List.intercalate ['*'] ((splitOnSpace q.toList []).map (List.intersperse '*')))

/-- defaultdict(list) append for the provider's results grouped by
lowercased basename. -/
def addCand (acc : List (String × List (String × Nat))) (base : String)
    (pr : String × Nat) : List (String × List (String × Nat)) :=
  match acc with
  | [] => [(base, [pr])]
  | (k, l) :: rest =>
    if k = base then (k, l ++ [pr]) :: rest else (k, l) :: addCand rest base pr

/-- The result loop of call_dll_search: drop ignored paths, group the
rest by lowercased basename in first-occurrence order. -/
def group_candidates (raw : List (String × Nat)) : List (String × List (String × Nat)) :=
  raw.foldl
    (fun acc pr =>
      if its_ignored_path pr.1 then acc
      else addCand acc (lowerStr (basename pr.1)) pr)
    []

/-- call_dll_search from src/search.py: normalize the query, short-cut
to an empty mapping when the normalized length is at most
MIN_QUERY_LENGTH, otherwise query the external index (the provider
oracle, standing for the Everything DLL call) and group its results. -/
def call_dll_search (provider : String → List (String × Nat)) (query : String) :
    List (String × List (String × Nat)) :=
  let q := normalize_query query
  if q.length ≤ MIN_QUERY_LENGTH then []
  else group_candidates (provider (make_term q))

/-- The function _lookup from src/search.py: empty mapping short-cut,
then scoring and postprocessing; a ZeroDivisionError escaping
precompute_scores propagates. -/
noncomputable def lookupCore (provider : String → List (String × Nat))
    (tokenRatio : String → Nat) (stat : String → Option (Nat × Nat)) (query : String) :
    Except PyErr (List Answer) :=
  let order := call_dll_search provider query
  if order.isEmpty then Except.ok []
  else (precompute_scores query order tokenRatio).map (postprocess_scoring stat order)

/-- lookup from src/search.py: transliterate an all-Cyrillic query
through the keyboard table (raising KeyError on an uppercase Cyrillic
letter, because the match is case-insensitive but the table is
lowercase-only), then run the pipeline. -/
noncomputable def lookup (provider : String → List (String × Nat))
    (tokenRatio : String → Nat) (stat : String → Option (Nat × Nat)) (query : String) :
    Except PyErr (List Answer) :=
  if IsCyrillic query then
    match Translate query with
    | none => Except.error PyErr.keyError
    | some q => lookupCore provider tokenRatio stat q
  else lookupCore provider tokenRatio stat query

/-! ## Witness oracles -/

/-- An index oracle returning no candidates. -/
def noProvider : String → List (String × Nat) := fun _ => []

/-- A token-ratio oracle returning 0. -/
def noRatio : String → Nat := fun _ => 0

/-- A stat oracle on which every path fails to resolve. -/
def noStat : String → Option (Nat × Nat) := fun _ => none

/-- A stat oracle on which every path resolves to one identity. -/
def c2Stat : String → Option (Nat × Nat) := fun _ => some (1, 1)

/-- One stem with two candidate paths of the same identity: the first
visited has run count 1, the second (with the shorter path) has run
count 5. -/
def c2Order : List (String × List (String × Nat)) := [("a", [("pp", 1), ("q", 5)])]

/-- A scored set giving that stem the score 1. -/
noncomputable def c2Scores : List (String × ℝ) := [("a", 1)]

/-- The single Answer the pipeline emits on the counterexample input:
the shorter path "q", but the run count 1 of the first-visited
candidate. -/
noncomputable def c2Answer : Answer :=
  { path := "q", dir := ".", stem := "q", runs := 1,
    score := Real.sqrt (((1 : Nat) : ℝ) + 1) * Real.sqrt ((1 : ℝ) + 1) }

/-! ## Lemmas about the metric helpers -/

theorem subseqScan_nil_query (st : List Char) (i : Nat) : subseqScan st [] i = ([], []) := by
  cases st <;> rfl

theorem uniqueAux_mem {c : Char} : ∀ (l seen : List Char), c ∈ uniqueAux l seen → c ∈ l
  | [], _, h => by simp [uniqueAux] at h
  | x :: xs, seen, h => by
    rw [uniqueAux] at h
    split at h
    · exact List.mem_cons_of_mem x (uniqueAux_mem xs seen h)
    · rcases List.mem_cons.mp h with h1 | h2
      · exact h1 ▸ List.mem_cons_self x xs
      · exact List.mem_cons_of_mem x (uniqueAux_mem xs (x :: seen) h2)

theorem count_missing_letters_self (t : String) : count_missing_letters t t = 0 := by
  rw [count_missing_letters, List.length_eq_zero, List.filter_eq_nil_iff]
  intro c hc
  have h1 : c ∈ t.toList := uniqueAux_mem _ _ hc
  rw [String.toList] at h1
  simp [h1]

theorem dl_self : ∀ l : List Char, dl l l = 0
  | [] => by simp [dl]
  | x :: xs => by
    have ih := dl_self xs
    cases xs with
    | nil => simp [dl, ih]
    | cons x2 xs2 => simp [dl, ih]

theorem distance_self (x : String) : distance x x = 0 :=
  dl_self x.toList

theorem distance_relative_self (x : String) : distance_relative x x = 0 := by
  rw [distance_relative]
  split
  · rfl
  · rw [distance_self]; simp

/-- Claim C7: for every pair (query, stem) such that the characters of
the query do not all appear in the stem in order under the greedy
left-to-right scan, the subsequence-density factor
subsequence_match(query, stem) is exactly 0. -/
theorem C7_subsequence_density_zero (q s : String)
    (h : greedy_subsequence q s = false) : subsequence_match q s = 0 := by
  rw [greedy_subsequence] at h
  rw [subsequence_match]
  cases hq : q.toList.isEmpty with
  | true =>
    exfalso
    rw [List.isEmpty_iff.mp hq, subseqScan_nil_query] at h
    simp at h
  | false =>
    simp [hq]
    intro hcon
    rw [String.toList, String.toList, hcon] at h
    simp at h

/-- Witness for C7 at the concrete pair ("ab", "b"): the greedy scan
fails and the density is 0. -/
theorem C7_witness :
    greedy_subsequence "ab" "b" = false ∧ subsequence_match "ab" "b" = 0 :=
  ⟨by decide, C7_subsequence_density_zero "ab" "b" (by decide)⟩

/-- Claim C8: distance_relative returns 0 whenever either operand is
empty; the ZeroDivisionError branch is suppressed to the value 0, so no
exception escapes. -/
theorem C8_distance_relative_empty_zero (x y : String) (h : x = "" ∨ y = "") :
    distance_relative x y = 0 := by
  have h0 : min x.length y.length = 0 := by
    rcases h with h | h <;> simp [h]
  rw [distance_relative, if_pos h0]

/-- Witness for C8 at the concrete pair ("", "abc"). -/
theorem C8_witness : ("" = "" ∨ "abc" = "") ∧ distance_relative "" "abc" = 0 :=
  ⟨Or.inl rfl, C8_distance_relative_empty_zero "" "abc" (Or.inl rfl)⟩

/-- Claim C9: the similarity metrics vanish on identical inputs —
distance(x, x) = 0 and distance_relative(x, x) = 0 for nonempty x, and
count_missing_letters(term, term) = 0 for every term. -/
theorem C9_identity_metrics (x : String) (_h : x ≠ "") :
    (distance x x = 0 ∧ distance_relative x x = 0) ∧
      ∀ t : String, count_missing_letters t t = 0 :=
  ⟨⟨distance_self x, distance_relative_self x⟩, count_missing_letters_self⟩

/-- Witness for C9 at the concrete nonempty string "ab". -/
theorem C9_witness :
    ("ab" ≠ "") ∧ ((distance "ab" "ab" = 0 ∧ distance_relative "ab" "ab" = 0) ∧
      ∀ t : String, count_missing_letters t t = 0) :=
  ⟨by decide, C9_identity_metrics "ab" (by decide)⟩

/-- Claim C1 (code bug): the spec says the token-similarity ratio is
normalized to [0,1] and applied as a final multiplicative factor, so a
stem with zero token overlap scores at or near zero and the computation
does not raise. The source instead divides: rate /= ratio/100. At the
concrete input query "aa" with the single candidate word "xyz.exe"
(stem "xyz", which passes the missing-letter gate since only the letter
a is missing) and an external token ratio of 0, the scoring engine
raises ZeroDivisionError instead of scoring the stem at zero. -/
theorem C1_token_ratio_zero_raises :
    precompute_scores "aa" [("xyz.exe", [("c:\\xyz.exe", 0)])] (fun _ => 0) =
      Except.error PyErr.zeroDivisionError := by
  rfl

/-- Claim C6 (code bug): lookup on the one-letter query "Й" — whose
normalized length 1 is at or below MIN_QUERY_LENGTH — raises KeyError
inside Keyboard.Translate (the regexes match Cyrillic case-insensitively
but the substitution table has lowercase keys only) instead of returning
the empty sequence the short-query guard would produce. -/
theorem C6_uppercase_cyrillic_raises (provider : String → List (String × Nat))
    (tokenRatio : String → Nat) (stat : String → Option (Nat × Nat)) :
    lookup provider tokenRatio stat "Й" = Except.error PyErr.keyError := by
  rfl

/-! ## Lemmas about association lists and the grouping fold -/

theorem alookup_none_iff {α β : Type} [DecidableEq α] (k : α) :
    ∀ m : List (α × β), alookup m k = none ↔ ∀ e ∈ m, e.1 ≠ k
  | [] => by simp [alookup]
  | (k0, b) :: rest => by
    rw [alookup]
    by_cases h : k0 = k
    · simp [h]
    · simp [h, alookup_none_iff k rest]

theorem alookup_of_mem_nodupkeys {α β : Type} [DecidableEq α] {e : α × β} :
    ∀ {m : List (α × β)}, List.Pairwise (fun a b : α × β => a.1 ≠ b.1) m →
      e ∈ m → alookup m e.1 = some e.2
  | [], _, he => absurd he (List.not_mem_nil e)
  | (k0, b) :: rest, hp, he => by
    rcases List.mem_cons.mp he with h1 | h2
    · subst h1; simp [alookup]
    · have hk : k0 ≠ e.1 := (List.pairwise_cons.mp hp).1 e h2
      rw [alookup, if_neg hk]
      exact alookup_of_mem_nodupkeys (List.pairwise_cons.mp hp).2 h2

theorem alookup_addPath_same (k : (Nat × Nat)) (p : String) :
    ∀ m : List ((Nat × Nat) × List String),
      alookup (addPath m k p) k = some ((alookup m k).getD [] ++ [p])
  | [] => by simp [addPath, alookup]
  | (k0, ps) :: rest => by
    rw [addPath]
    by_cases h : k0 = k
    · subst h; simp [alookup]
    · simp only [if_neg h, alookup, alookup_addPath_same k p rest]

theorem alookup_addPath_other {k k2 : (Nat × Nat)} (hne : k2 ≠ k) (p : String) :
    ∀ m : List ((Nat × Nat) × List String),
      alookup (addPath m k p) k2 = alookup m k2
  | [] => by
    have hks : ¬ k = k2 := fun h => hne h.symm
    simp [addPath, alookup, hks]
  | (k0, ps) :: rest => by
    rw [addPath]
    by_cases h : k0 = k
    · subst h
      have hks : ¬ k0 = k2 := fun h => hne h.symm
      simp [alookup, hks]
    · simp only [if_neg h, alookup, alookup_addPath_other hne p rest]

theorem alookup_append_some {α β : Type} [DecidableEq α] {k : α} {b : β} {e : α × β} :
    ∀ {m : List (α × β)}, alookup m k = some b → alookup (m ++ [e]) k = some b
  | [], h => by simp [alookup] at h
  | (k0, b0) :: rest, h => by
    rw [List.cons_append]
    rw [alookup] at h ⊢
    by_cases hk : k0 = k
    · simpa [hk] using h
    · rw [if_neg hk] at h ⊢
      exact alookup_append_some h

theorem alookup_append_none {α β : Type} [DecidableEq α] {k : α} (e : α × β) :
    ∀ {m : List (α × β)}, alookup m k = none →
      alookup (m ++ [e]) k = if e.1 = k then some e.2 else none
  | [], _ => by simp [alookup]
  | (k0, b0) :: rest, h => by
    rw [List.cons_append]
    rw [alookup] at h ⊢
    by_cases hk : k0 = k
    · simp [hk] at h
    · rw [if_neg hk] at h ⊢
      exact alookup_append_none e h

/-- The mapping component of one grouping step. -/
theorem gStep_mapping (stat : String → Option (Nat × Nat)) (g : Groups)
    (v : String × Nat × ℝ) : (gStep stat g v).mapping =
      match stat v.1 with
      | none => g.mapping
      | some key => addPath g.mapping key v.1 := by
  rw [gStep]
  cases stat v.1 with
  | none => rfl
  | some key =>
    dsimp only
    cases alookup g.scoring key <;> rfl

/-- The scoring component of one grouping step. -/
theorem gStep_scoring (stat : String → Option (Nat × Nat)) (g : Groups)
    (v : String × Nat × ℝ) : (gStep stat g v).scoring =
      match stat v.1 with
      | none => g.scoring
      | some key =>
        match alookup g.scoring key with
        | some _ => g.scoring
        | none =>
          g.scoring ++ [(key, Real.sqrt ((v.2.1 : ℝ) + 1) * Real.sqrt (v.2.2 + 1))] := by
  rw [gStep]
  cases stat v.1 with
  | none => rfl
  | some key =>
    dsimp only
    cases alookup g.scoring key <;> rfl

/-- The runstat component of one grouping step. -/
theorem gStep_runstat (stat : String → Option (Nat × Nat)) (g : Groups)
    (v : String × Nat × ℝ) : (gStep stat g v).runstat =
      match stat v.1 with
      | none => g.runstat
      | some key =>
        match alookup g.scoring key with
        | some _ => g.runstat
        | none => g.runstat ++ [(key, v.2.1)] := by
  rw [gStep]
  cases stat v.1 with
  | none => rfl
  | some key =>
    dsimp only
    cases alookup g.scoring key <;> rfl

theorem gatherFlat_append (stat : String → Option (Nat × Nat))
    (vs : List (String × Nat × ℝ)) (v : String × Nat × ℝ) :
    gatherFlat stat (vs ++ [v]) = gStep stat (gatherFlat stat vs) v := by
  rw [gatherFlat, gatherFlat, List.foldl_append, List.foldl_cons, List.foldl_nil]

theorem pathsOf_append (stat : String → Option (Nat × Nat))
    (vs : List (String × Nat × ℝ)) (v : String × Nat × ℝ) (k : Nat × Nat) :
    pathsOf stat (vs ++ [v]) k =
      pathsOf stat vs k ++ if visitMatches stat k v then [v.1] else [] := by
  rw [pathsOf, pathsOf, List.filter_append, List.map_append]
  cases h : visitMatches stat k v <;> simp [h]

theorem firstVisit_append (stat : String → Option (Nat × Nat))
    (vs : List (String × Nat × ℝ)) (v : String × Nat × ℝ) (k : Nat × Nat) :
    firstVisit stat (vs ++ [v]) k =
      match firstVisit stat vs k with
      | some u => some u
      | none => if visitMatches stat k v then some v else none := by
  rw [firstVisit, firstVisit, List.find?_append]
  cases h : List.find? (visitMatches stat k) vs with
  | some u => rfl
  | none =>
    cases hv : visitMatches stat k v <;> simp [List.find?, hv, Option.orElse]

theorem alookup_append_ne {α β : Type} [DecidableEq α] {k : α} {e : α × β} (hne : e.1 ≠ k) :
    ∀ m : List (α × β), alookup (m ++ [e]) k = alookup m k
  | [] => by simp [alookup, hne]
  | (k0, b0) :: rest => by
    rw [List.cons_append, alookup, alookup]
    by_cases hk : k0 = k
    · simp [hk]
    · rw [if_neg hk, if_neg hk]
      exact alookup_append_ne hne rest

/-- The mapping dictionary after the fold holds, for every identity,
exactly the paths of its visits in order. -/
theorem gatherFlat_mapping (stat : String → Option (Nat × Nat))
    (vs : List (String × Nat × ℝ)) : ∀ k : Nat × Nat,
    alookup (gatherFlat stat vs).mapping k =
      if pathsOf stat vs k = [] then none else some (pathsOf stat vs k) := by
  induction vs using List.reverseRecOn with
  | nil => intro k; simp [gatherFlat, pathsOf, alookup]
  | append_singleton l v ih =>
    intro k
    rw [gatherFlat_append, gStep_mapping, pathsOf_append]
    cases hv : stat v.1 with
    | none =>
      have hm : visitMatches stat k v = false := by
        simp [visitMatches, hv]
      simp [hm, ih k]
    | some key =>
      dsimp only
      by_cases hk : key = k
      · subst hk
        have hm : visitMatches stat key v = true := by
          simp [visitMatches, hv]
        rw [alookup_addPath_same, ih key, hm]
        cases hp : pathsOf stat l key with
        | nil => simp
        | cons p ps => simp
      · have hm : visitMatches stat k v = false := by
          simp [visitMatches, hv, hk]
        have hne : k ≠ key := fun h => hk h.symm
        rw [alookup_addPath_other hne, ih k, hm]
        simp

/-- The scoring dictionary after the fold holds, for every identity, the
combined weight sqrt(runs+1)*sqrt(score+1) of the first visit that
resolved to it. -/
theorem gatherFlat_scoring (stat : String → Option (Nat × Nat))
    (vs : List (String × Nat × ℝ)) : ∀ k : Nat × Nat,
    alookup (gatherFlat stat vs).scoring k =
      (firstVisit stat vs k).map
        (fun v => Real.sqrt ((v.2.1 : ℝ) + 1) * Real.sqrt (v.2.2 + 1)) := by
  induction vs using List.reverseRecOn with
  | nil => intro k; simp [gatherFlat, firstVisit, alookup]
  | append_singleton l v ih =>
    intro k
    rw [gatherFlat_append, gStep_scoring, firstVisit_append]
    cases hv : stat v.1 with
    | none =>
      have hm : visitMatches stat k v = false := by
        simp [visitMatches, hv]
      rw [ih k, hm]
      cases firstVisit stat l k <;> simp
    | some key =>
      dsimp only
      cases hsc : alookup (gatherFlat stat l).scoring key with
      | some w =>
        have hfk : ∃ u, firstVisit stat l key = some u := by
          rw [ih key] at hsc
          cases hf : firstVisit stat l key with
          | none => rw [hf] at hsc; simp at hsc
          | some u => exact ⟨u, rfl⟩
        rcases hfk with ⟨u, hu⟩
        by_cases hk : key = k
        · subst hk
          rw [hu, ih key, hu]
        · have hm : visitMatches stat k v = false := by
            simp [visitMatches, hv, hk]
          rw [ih k, hm]
          cases firstVisit stat l k <;> simp
      | none =>
        have hfk : firstVisit stat l key = none := by
          rw [ih key] at hsc
          cases hf : firstVisit stat l key with
          | none => rfl
          | some u => rw [hf] at hsc; simp at hsc
        by_cases hk : key = k
        · subst hk
          have hm : visitMatches stat key v = true := by
            simp [visitMatches, hv]
          rw [hfk, alookup_append_none _ hsc, hm]
          simp
        · have hm : visitMatches stat k v = false := by
            simp [visitMatches, hv, hk]
          rw [alookup_append_ne hk, ih k, hm]
          cases firstVisit stat l k <;> simp

/-- The runstat dictionary after the fold holds, for every identity, the
run count of the first visit that resolved to it. -/
theorem gatherFlat_runstat (stat : String → Option (Nat × Nat))
    (vs : List (String × Nat × ℝ)) : ∀ k : Nat × Nat,
    alookup (gatherFlat stat vs).runstat k =
      (firstVisit stat vs k).map (fun v => v.2.1) := by
  induction vs using List.reverseRecOn with
  | nil => intro k; simp [gatherFlat, firstVisit, alookup]
  | append_singleton l v ih =>
    intro k
    rw [gatherFlat_append, gStep_runstat, firstVisit_append]
    cases hv : stat v.1 with
    | none =>
      have hm : visitMatches stat k v = false := by
        simp [visitMatches, hv]
      rw [ih k, hm]
      cases firstVisit stat l k <;> simp
    | some key =>
      dsimp only
      cases hsc : alookup (gatherFlat stat l).scoring key with
      | some w =>
        have hfk : ∃ u, firstVisit stat l key = some u := by
          rw [gatherFlat_scoring stat l key] at hsc
          cases hf : firstVisit stat l key with
          | none => rw [hf] at hsc; simp at hsc
          | some u => exact ⟨u, rfl⟩
        rcases hfk with ⟨u, hu⟩
        by_cases hk : key = k
        · subst hk
          rw [hu, ih key, hu]
        · have hm : visitMatches stat k v = false := by
            simp [visitMatches, hv, hk]
          rw [ih k, hm]
          cases firstVisit stat l k <;> simp
      | none =>
        have hfk : firstVisit stat l key = none := by
          rw [gatherFlat_scoring stat l key] at hsc
          cases hf : firstVisit stat l key with
          | none => rfl
          | some u => rw [hf] at hsc; simp at hsc
        have hrs : alookup (gatherFlat stat l).runstat key = none := by
          rw [ih key, hfk]
          rfl
        by_cases hk : key = k
        · subst hk
          have hm : visitMatches stat key v = true := by
            simp [visitMatches, hv]
          rw [hfk, alookup_append_none _ hrs, hm]
          simp
        · have hm : visitMatches stat k v = false := by
            simp [visitMatches, hv, hk]
          rw [alookup_append_ne hk, ih k, hm]
          cases firstVisit stat l k <;> simp

/-- The scoring dictionary never holds two entries for one identity. -/
theorem gatherFlat_scoring_nodup (stat : String → Option (Nat × Nat))
    (vs : List (String × Nat × ℝ)) :
    List.Pairwise (fun a b : (Nat × Nat) × ℝ => a.1 ≠ b.1)
      (gatherFlat stat vs).scoring := by
  induction vs using List.reverseRecOn with
  | nil => simp [gatherFlat]
  | append_singleton l v ih =>
    rw [gatherFlat_append, gStep_scoring]
    cases hv : stat v.1 with
    | none => exact ih
    | some key =>
      dsimp only
      cases hsc : alookup (gatherFlat stat l).scoring key with
      | some w => exact ih
      | none =>
        rw [List.pairwise_append]
        refine ⟨ih, List.pairwise_singleton _ _, ?_⟩
        intro a ha b hb
        rw [List.mem_singleton] at hb
        subst hb
        exact (alookup_none_iff key _).mp hsc a ha

theorem nested_foldl_visits (stat : String → Option (Nat × Nat))
    (order : List (String × List (String × Nat))) :
    ∀ (scores : List (String × ℝ)) (g : Groups),
      scores.foldl
        (fun g ss => ((alookup order ss.1).getD []).foldl
          (fun g2 pr => gStep stat g2 (pr.1, pr.2, ss.2)) g) g
      = (visits order scores).foldl (gStep stat) g
  | [], g => rfl
  | ss :: rest, g => by
    rw [List.foldl_cons, visits, List.foldl_append,
      nested_foldl_visits stat order rest]
    congr 1
    rw [List.foldl_map]

/-- The nested candidate loops of postprocess_scoring are the flat fold
over the visit list. -/
theorem gather_eq_gatherFlat (stat : String → Option (Nat × Nat))
    (order : List (String × List (String × Nat))) (scores : List (String × ℝ)) :
    gather stat order scores = gatherFlat stat (visits order scores) := by
  rw [gather, gatherFlat]
  exact nested_foldl_visits stat order scores ⟨[], [], []⟩

theorem most_common_mem {n : Nat} {l : List ((Nat × Nat) × ℝ)} {x : (Nat × Nat) × ℝ}
    (h : x ∈ most_common n l) : x ∈ l := by
  rw [most_common] at h
  exact (List.mem_insertionSort weightGE).mp (List.mem_of_mem_take h)

theorem most_common_length (n : Nat) (l : List ((Nat × Nat) × ℝ)) :
    (most_common n l).length ≤ n := by
  rw [most_common]
  exact List.length_take_le n _

theorem most_common_sorted (n : Nat) (l : List ((Nat × Nat) × ℝ)) :
    List.Pairwise weightGE (most_common n l) := by
  rw [most_common]
  exact List.Pairwise.sublist (List.take_sublist n _)
    (List.sorted_insertionSort weightGE l)

theorem most_common_nodupkeys (n : Nat) {l : List ((Nat × Nat) × ℝ)}
    (h : List.Pairwise (fun a b : (Nat × Nat) × ℝ => a.1 ≠ b.1) l) :
    List.Pairwise (fun a b : (Nat × Nat) × ℝ => a.1 ≠ b.1) (most_common n l) := by
  rw [most_common]
  apply List.Pairwise.sublist (List.take_sublist n _)
  exact ((List.perm_insertionSort weightGE l).pairwise_iff
    (fun hab => Ne.symm hab)).mpr h

theorem shortest_fold_spec :
    ∀ (l : List String) (acc : String),
      (l.foldl (fun a s => if s.length < a.length then s else a) acc = acc ∨
        l.foldl (fun a s => if s.length < a.length then s else a) acc ∈ l) ∧
      (l.foldl (fun a s => if s.length < a.length then s else a) acc).length ≤ acc.length ∧
      (∀ p ∈ l, (l.foldl (fun a s => if s.length < a.length then s else a) acc).length ≤ p.length)
  | [], acc => by simp
  | s :: t, acc => by
    rw [List.foldl_cons]
    by_cases h : s.length < acc.length
    · rw [if_pos h]
      rcases shortest_fold_spec t s with ⟨hm, hle, hall⟩
      refine ⟨?_, le_trans hle (le_of_lt h), ?_⟩
      · rcases hm with hm | hm
        · right; rw [hm]; exact List.mem_cons_self s t
        · right; exact List.mem_cons_of_mem s hm
      · intro p hp
        rcases List.mem_cons.mp hp with hp | hp
        · rw [hp]; exact hle
        · exact hall p hp
    · rw [if_neg h]
      rcases shortest_fold_spec t acc with ⟨hm, hle, hall⟩
      refine ⟨?_, hle, ?_⟩
      · rcases hm with hm | hm
        · left; exact hm
        · right; exact List.mem_cons_of_mem s hm
      · intro p hp
        rcases List.mem_cons.mp hp with hp | hp
        · rw [hp]; exact le_trans hle (le_of_not_lt h)
        · exact hall p hp

/-- sorted(paths, key=len)[0] is a member of minimal length. -/
theorem shortest_spec {l : List String} (h : l ≠ []) :
    shortest l ∈ l ∧ ∀ p ∈ l, (shortest l).length ≤ p.length := by
  cases l with
  | nil => exact absurd rfl h
  | cons s t =>
    rw [shortest, List.headD_cons, List.foldl_cons, if_neg (lt_irrefl _)]
    rcases shortest_fold_spec t s with ⟨hm, hle, hall⟩
    constructor
    · rcases hm with hm | hm
      · rw [hm]; exact List.mem_cons_self s t
      · exact List.mem_cons_of_mem s hm
    · intro p hp
      rcases List.mem_cons.mp hp with hp | hp
      · rw [hp]; exact hle
      · exact hall p hp

theorem pathsOf_stat {stat : String → Option (Nat × Nat)}
    {vs : List (String × Nat × ℝ)} {k : Nat × Nat} {p : String}
    (hp : p ∈ pathsOf stat vs k) : stat p = some k := by
  rw [pathsOf] at hp
  rcases List.mem_map.mp hp with ⟨u, hu, hup⟩
  have hm := List.of_mem_filter hu
  rw [visitMatches] at hm
  rw [← hup]
  exact of_decide_eq_true hm

theorem firstVisit_mem {stat : String → Option (Nat × Nat)}
    {vs : List (String × Nat × ℝ)} {k : Nat × Nat} {v : String × Nat × ℝ}
    (h : firstVisit stat vs k = some v) : v ∈ vs ∧ stat v.1 = some k := by
  refine ⟨List.mem_of_find?_eq_some h, ?_⟩
  have hm := List.find?_some h
  rw [visitMatches] at hm
  exact of_decide_eq_true hm

/-- Every entry of the scoring dictionary corresponds to the first visit
of its identity: its weight is built from that visit, the runstat entry
holds that visit's run count, and the mapping entry holds the group's
paths (a nonempty list). -/
theorem scoring_entry_spec (stat : String → Option (Nat × Nat))
    (vs : List (String × Nat × ℝ)) {ks : (Nat × Nat) × ℝ}
    (hmem : ks ∈ (gatherFlat stat vs).scoring) :
    ∃ v, firstVisit stat vs ks.1 = some v ∧
      ks.2 = Real.sqrt ((v.2.1 : ℝ) + 1) * Real.sqrt (v.2.2 + 1) ∧
      alookup (gatherFlat stat vs).runstat ks.1 = some v.2.1 ∧
      alookup (gatherFlat stat vs).mapping ks.1 = some (pathsOf stat vs ks.1) ∧
      pathsOf stat vs ks.1 ≠ [] := by
  have hlook := alookup_of_mem_nodupkeys (gatherFlat_scoring_nodup stat vs) hmem
  rw [gatherFlat_scoring] at hlook
  cases hfv : firstVisit stat vs ks.1 with
  | none => rw [hfv] at hlook; simp at hlook
  | some v =>
    rw [hfv] at hlook
    have hw : ks.2 = Real.sqrt ((v.2.1 : ℝ) + 1) * Real.sqrt (v.2.2 + 1) := by
      simpa using hlook.symm
    have hvm := firstVisit_mem hfv
    have hppmem : v.1 ∈ pathsOf stat vs ks.1 := by
      rw [pathsOf]
      apply List.mem_map.mpr
      refine ⟨v, List.mem_filter.mpr ⟨hvm.1, ?_⟩, rfl⟩
      rw [visitMatches]
      exact decide_eq_true hvm.2
    have hpne : pathsOf stat vs ks.1 ≠ [] := List.ne_nil_of_mem hppmem
    refine ⟨v, rfl, hw, ?_, ?_, hpne⟩
    · rw [gatherFlat_runstat, hfv]; rfl
    · rw [gatherFlat_mapping, if_neg hpne]

/-- Master description of an emitted Answer: it belongs to a file
identity k with a first visit v; its displayed path resolves to k and is
a shortest member of the group; its run count and score are the run
count and combined weight retained from v. -/
theorem postprocess_answer_spec (stat : String → Option (Nat × Nat))
    (order : List (String × List (String × Nat))) (scores : List (String × ℝ))
    {a : Answer} (ha : a ∈ postprocess_scoring stat order scores) :
    ∃ k v, firstVisit stat (visits order scores) k = some v ∧
      stat a.path = some k ∧
      a.runs = v.2.1 ∧
      a.score = Real.sqrt ((v.2.1 : ℝ) + 1) * Real.sqrt (v.2.2 + 1) ∧
      a.path ∈ pathsOf stat (visits order scores) k ∧
      ∀ p ∈ pathsOf stat (visits order scores) k, a.path.length ≤ p.length := by
  simp only [postprocess_scoring, gather_eq_gatherFlat] at ha
  rcases List.mem_map.mp ha with ⟨ks, hks, hfa⟩
  have hmem := most_common_mem hks
  rcases scoring_entry_spec stat (visits order scores) hmem with
    ⟨v, hfv, hw, hrun, hmap, hpne⟩
  rcases shortest_spec hpne with ⟨hsm, hsmin⟩
  subst hfa
  refine ⟨ks.1, v, hfv, ?_, ?_, ?_, ?_, ?_⟩
  · show stat (shortest ((alookup (gatherFlat stat (visits order scores)).mapping ks.1).getD []))
      = some ks.1
    rw [hmap]
    exact pathsOf_stat hsm
  · show (alookup (gatherFlat stat (visits order scores)).runstat ks.1).getD 0 = v.2.1
    rw [hrun]
    rfl
  · exact hw
  · show shortest ((alookup (gatherFlat stat (visits order scores)).mapping ks.1).getD [])
      ∈ pathsOf stat (visits order scores) ks.1
    rw [hmap]
    exact hsm
  · intro p hp
    show (shortest ((alookup (gatherFlat stat (visits order scores)).mapping ks.1).getD [])).length
      ≤ p.length
    rw [hmap]
    exact hsmin p hp

/-- The top-K selection emits at most MAX_RESULTS_COUNT answers. -/
theorem postprocess_length (stat : String → Option (Nat × Nat))
    (order : List (String × List (String × Nat))) (scores : List (String × ℝ)) :
    (postprocess_scoring stat order scores).length ≤ MAX_RESULTS_COUNT := by
  simp only [postprocess_scoring, List.length_map]
  exact most_common_length _ _

/-- The answers are emitted in descending order of their score field. -/
theorem postprocess_sorted (stat : String → Option (Nat × Nat))
    (order : List (String × List (String × Nat))) (scores : List (String × ℝ)) :
    List.Pairwise (fun a b : Answer => b.score ≤ a.score)
      (postprocess_scoring stat order scores) := by
  simp only [postprocess_scoring]
  rw [List.pairwise_map]
  apply List.Pairwise.imp ?_ (most_common_sorted _ _)
  intro a b hab
  exact hab

/-- No two answers of one result resolve to the same file identity. -/
theorem postprocess_pairwise_stat (stat : String → Option (Nat × Nat))
    (order : List (String × List (String × Nat))) (scores : List (String × ℝ)) :
    List.Pairwise (fun a b : Answer => stat a.path ≠ stat b.path)
      (postprocess_scoring stat order scores) := by
  simp only [postprocess_scoring, gather_eq_gatherFlat]
  rw [List.pairwise_map]
  have hnd := most_common_nodupkeys MAX_RESULTS_COUNT
    (gatherFlat_scoring_nodup stat (visits order scores))
  apply List.Pairwise.imp_of_mem ?_ hnd
  intro x y hx hy hxy
  rcases scoring_entry_spec stat (visits order scores) (most_common_mem hx) with
    ⟨vx, _, _, _, hmapx, hpnex⟩
  rcases scoring_entry_spec stat (visits order scores) (most_common_mem hy) with
    ⟨vy, _, _, _, hmapy, hpney⟩
  show stat (shortest ((alookup (gatherFlat stat (visits order scores)).mapping x.1).getD []))
      ≠ stat (shortest ((alookup (gatherFlat stat (visits order scores)).mapping y.1).getD []))
  rw [hmapx, hmapy]
  simp only [Option.getD_some]
  rw [pathsOf_stat (shortest_spec hpnex).1, pathsOf_stat (shortest_spec hpney).1]
  intro hcon
  exact hxy (Option.some_injective _ hcon)

/-- Every value the scoring engine returns lies strictly above the 0.001
acceptance floor, and its word passed the missing-letter gate. -/
theorem precompute_go_spec (query chars : String) (tokenRatio : String → Nat) :
    ∀ (words : List String) (res : List (String × ℝ)),
      precompute_go query chars tokenRatio words = Except.ok res →
      ∀ e ∈ res, (1 / 1000 : ℝ) < e.2 ∧
        count_missing_letters query (stemOfWord e.1) ≤ MAX_MISSING_LETTERS
  | [], res, h => by
    rw [precompute_go] at h
    cases h
    intro e he
    exact absurd he (List.not_mem_nil e)
  | word :: rest, res, h => by
    rw [precompute_go] at h
    split at h
    · exact precompute_go_spec query chars tokenRatio rest res h
    · rename_i hgate
      split at h
      · cases h
      · rename_i rate heq
        split at h
        · exact precompute_go_spec query chars tokenRatio rest res h
        · rename_i hfloor
          cases hrest : precompute_go query chars tokenRatio rest with
          | error e => rw [hrest] at h; cases h
          | ok res2 =>
            rw [hrest] at h
            cases h
            intro e he
            rcases List.mem_cons.mp he with he | he
            · rw [he]
              exact ⟨lt_of_not_le hfloor, le_of_not_lt hgate⟩
            · exact precompute_go_spec query chars tokenRatio rest res2 hrest e he

/-- precompute_scores keeps only words above the floor that passed the
missing-letter gate. -/
theorem precompute_scores_spec (query : String)
    (order : List (String × List (String × Nat))) (tokenRatio : String → Nat)
    (res : List (String × ℝ))
    (h : precompute_scores query order tokenRatio = Except.ok res) :
    ∀ e ∈ res, (1 / 1000 : ℝ) < e.2 ∧
      count_missing_letters query (stemOfWord e.1) ≤ MAX_MISSING_LETTERS := by
  rw [precompute_scores] at h
  exact precompute_go_spec query (get_used_chars query) tokenRatio _ res h

/-- Every visit carries a path and run count from some scored stem's
candidate list and that stem's score. -/
theorem visits_mem {order : List (String × List (String × Nat))} :
    ∀ {scores : List (String × ℝ)} {v : String × Nat × ℝ},
      v ∈ visits order scores →
      ∃ ss ∈ scores, (v.1, v.2.1) ∈ (alookup order ss.1).getD [] ∧ v.2.2 = ss.2
  | [], v, h => by
    rw [visits] at h
    exact absurd h (List.not_mem_nil v)
  | ss :: rest, v, h => by
    rw [visits] at h
    rcases List.mem_append.mp h with h | h
    · rcases List.mem_map.mp h with ⟨pr, hpr, hprv⟩
      refine ⟨ss, List.mem_cons_self ss rest, ?_, ?_⟩
      · rw [← hprv]
        exact hpr
      · rw [← hprv]
    · rcases visits_mem h with ⟨ss2, hss2, hv⟩
      exact ⟨ss2, List.mem_cons_of_mem ss hss2, hv⟩

/-- An Except.ok result of the pipeline core is either the empty
short-cut or the postprocessing of an Except.ok scoring. -/
theorem lookupCore_ok (provider : String → List (String × Nat))
    (tokenRatio : String → Nat) (stat : String → Option (Nat × Nat))
    (q : String) (res : List Answer)
    (h : lookupCore provider tokenRatio stat q = Except.ok res) :
    res = [] ∨ ∃ scores,
      precompute_scores q (call_dll_search provider q) tokenRatio = Except.ok scores ∧
      res = postprocess_scoring stat (call_dll_search provider q) scores := by
  rw [lookupCore] at h
  split at h
  · left
    cases h
    rfl
  · right
    cases hp : precompute_scores q (call_dll_search provider q) tokenRatio with
    | error e => rw [hp] at h; cases h
    | ok scores =>
      rw [hp] at h
      cases h
      exact ⟨scores, rfl, rfl⟩

/-- An Except.ok result of lookup is either empty or a postprocessing of
an Except.ok scoring for the effective (possibly transliterated) query. -/
theorem lookup_ok (provider : String → List (String × Nat))
    (tokenRatio : String → Nat) (stat : String → Option (Nat × Nat))
    (q : String) (res : List Answer)
    (h : lookup provider tokenRatio stat q = Except.ok res) :
    res = [] ∨ ∃ q2 order scores,
      order = call_dll_search provider q2 ∧
      precompute_scores q2 order tokenRatio = Except.ok scores ∧
      res = postprocess_scoring stat order scores := by
  rw [lookup] at h
  split at h
  · split at h
    · cases h
    · rename_i q2 _
      rcases lookupCore_ok provider tokenRatio stat q2 res h with h2 | ⟨scores, h3, h4⟩
      · exact Or.inl h2
      · exact Or.inr ⟨q2, call_dll_search provider q2, scores, rfl, h3, h4⟩
  · rcases lookupCore_ok provider tokenRatio stat q res h with h2 | ⟨scores, h3, h4⟩
    · exact Or.inl h2
    · exact Or.inr ⟨q, call_dll_search provider q, scores, rfl, h3, h4⟩

/-- Combined weights exceed 1 whenever the stem score cleared the 0.001
acceptance floor, since run counts are nonnegative. -/
theorem weight_gt_one (r : Nat) (s : ℝ) (hs : (1 / 1000 : ℝ) < s) :
    1 < Real.sqrt ((r : ℝ) + 1) * Real.sqrt (s + 1) := by
  have h1 : Real.sqrt 1 ≤ Real.sqrt ((r : ℝ) + 1) := by
    apply Real.sqrt_le_sqrt
    have : (0 : ℝ) ≤ (r : ℝ) := Nat.cast_nonneg r
    linarith
  rw [Real.sqrt_one] at h1
  have h2 : Real.sqrt 1 < Real.sqrt (s + 1) := by
    apply Real.sqrt_lt_sqrt (by norm_num)
    linarith
  rw [Real.sqrt_one] at h2
  have h0 : (0 : ℝ) < Real.sqrt (s + 1) := lt_trans one_pos h2
  calc (1 : ℝ) < Real.sqrt (s + 1) := h2
  _ = 1 * Real.sqrt (s + 1) := (one_mul _).symm
  _ ≤ Real.sqrt ((r : ℝ) + 1) * Real.sqrt (s + 1) :=
      mul_le_mul_of_nonneg_right h1 (le_of_lt h0)

/-! ## Claims about the deduplication and selection pipeline -/

/-- Claim C3: for every query and every set of resolved candidates, no
two Answers in the returned result share a FileIdentity — the stat
identities of their paths are pairwise distinct. -/
theorem C3_no_shared_identity (provider : String → List (String × Nat))
    (tokenRatio : String → Nat) (stat : String → Option (Nat × Nat))
    (q : String) (res : List Answer)
    (h : lookup provider tokenRatio stat q = Except.ok res) :
    List.Pairwise (fun a b : Answer => stat a.path ≠ stat b.path) res := by
  rcases lookup_ok provider tokenRatio stat q res h with h2 | ⟨q2, order, scores, _, _, h4⟩
  · rw [h2]; exact List.Pairwise.nil
  · rw [h4]; exact postprocess_pairwise_stat stat order scores

/-- Witness for C3: the empty result of a short query. -/
theorem C3_witness :
    lookup noProvider noRatio noStat "x" = Except.ok [] ∧
    List.Pairwise (fun a b : Answer => noStat a.path ≠ noStat b.path) [] :=
  ⟨rfl, C3_no_shared_identity noProvider noRatio noStat "x" [] rfl⟩

/-- Claim C5: for every input query and candidate set, lookup returns at
most MAX_RESULTS_COUNT Answers, ordered by descending combined weight
(the score field, which claim C10 identifies with the combined
weight). -/
theorem C5_results_bounded_sorted (provider : String → List (String × Nat))
    (tokenRatio : String → Nat) (stat : String → Option (Nat × Nat))
    (q : String) (res : List Answer)
    (h : lookup provider tokenRatio stat q = Except.ok res) :
    res.length ≤ MAX_RESULTS_COUNT ∧
    List.Pairwise (fun a b : Answer => b.score ≤ a.score) res := by
  rcases lookup_ok provider tokenRatio stat q res h with h2 | ⟨q2, order, scores, _, _, h4⟩
  · rw [h2]
    exact ⟨Nat.zero_le _, List.Pairwise.nil⟩
  · rw [h4]
    exact ⟨postprocess_length stat order scores, postprocess_sorted stat order scores⟩

/-- Witness for C5: the empty result of a short query. -/
theorem C5_witness :
    lookup noProvider noRatio noStat "x" = Except.ok [] ∧
    ([] : List Answer).length ≤ MAX_RESULTS_COUNT ∧
    List.Pairwise (fun a b : Answer => b.score ≤ a.score) ([] : List Answer) :=
  ⟨rfl, C5_results_bounded_sorted noProvider noRatio noStat "x" [] rfl⟩

/-- Claim C10: every Answer returned by lookup carries in its score
field the combined weight sqrt(runs+1)*sqrt(s+1) of its FileIdentity
group — built from its own retained run count and a stem score s that
cleared the acceptance floor — and that weight is strictly greater
than 1. -/
theorem C10_score_is_group_weight (provider : String → List (String × Nat))
    (tokenRatio : String → Nat) (stat : String → Option (Nat × Nat))
    (q : String) (res : List Answer)
    (h : lookup provider tokenRatio stat q = Except.ok res) :
    ∀ a ∈ res,
      (∃ s : ℝ, (1 / 1000 : ℝ) < s ∧
        a.score = Real.sqrt ((a.runs : ℝ) + 1) * Real.sqrt (s + 1)) ∧
      1 < a.score := by
  rcases lookup_ok provider tokenRatio stat q res h with h2 | ⟨q2, order, scores, _, hpre, h4⟩
  · rw [h2]
    intro a ha
    exact absurd ha (List.not_mem_nil a)
  · rw [h4]
    intro a ha
    rcases postprocess_answer_spec stat order scores ha with
      ⟨k, v, hfv, _, hruns, hscore, _, _⟩
    have hv := firstVisit_mem hfv
    rcases visits_mem hv.1 with ⟨ss, hssmem, _, hv22⟩
    have hfloor := (precompute_scores_spec q2 order tokenRatio scores hpre ss hssmem).1
    have hs : (1 / 1000 : ℝ) < v.2.2 := by rw [hv22]; exact hfloor
    refine ⟨⟨v.2.2, hs, ?_⟩, ?_⟩
    · rw [hscore, hruns]
    · rw [hscore]
      exact weight_gt_one v.2.1 v.2.2 hs

/-- Witness for C10: the empty result of a short query. -/
theorem C10_witness :
    lookup noProvider noRatio noStat "x" = Except.ok [] ∧
    ∀ a ∈ ([] : List Answer),
      (∃ s : ℝ, (1 / 1000 : ℝ) < s ∧
        a.score = Real.sqrt ((a.runs : ℝ) + 1) * Real.sqrt (s + 1)) ∧
      1 < a.score :=
  ⟨rfl, C10_score_is_group_weight noProvider noRatio noStat "x" [] rfl⟩

/-- Claim C4: a stem whose character-set difference with the query
exceeds MAX_MISSING_LETTERS is discarded: its word never appears in an
Except.ok scored set, and every Answer of the postprocessing draws its
path from the candidate list of some scored word, so the gated stem
contributes nothing to the final result regardless of the other scoring
factors. -/
theorem C4_missing_letter_gate (q : String)
    (order : List (String × List (String × Nat))) (tokenRatio : String → Nat)
    (stat : String → Option (Nat × Nat)) (word : String)
    (h : MAX_MISSING_LETTERS < count_missing_letters q (stemOfWord word)) :
    (∀ res, precompute_scores q order tokenRatio = Except.ok res →
      word ∉ res.map Prod.fst) ∧
    (∀ res, precompute_scores q order tokenRatio = Except.ok res →
      ∀ a ∈ postprocess_scoring stat order res,
        ∃ ws ∈ res, a.path ∈ ((alookup order ws.1).getD []).map Prod.fst) := by
  constructor
  · intro res hres hmem
    rcases List.mem_map.mp hmem with ⟨e, he, hew⟩
    have hspec := (precompute_scores_spec q order tokenRatio res hres e he).2
    rw [hew] at hspec
    exact absurd h (not_lt.mpr hspec)
  · intro res hres a ha
    rcases postprocess_answer_spec stat order res ha with ⟨k, v, _, _, _, _, hmem, _⟩
    rw [pathsOf] at hmem
    rcases List.mem_map.mp hmem with ⟨u, hu, hup⟩
    rcases visits_mem (List.mem_of_mem_filter hu) with ⟨ss, hssmem, hcand, _⟩
    refine ⟨ss, hssmem, ?_⟩
    rw [← hup]
    exact List.mem_map.mpr ⟨(u.1, u.2.1), hcand, rfl⟩

/-- Witness for C4: the query "ab" misses both letters in the stem
"xyz" of the word "xyz.exe", and the empty candidate set scores to the
empty dictionary, which indeed does not contain the word. -/
theorem C4_witness :
    (MAX_MISSING_LETTERS < count_missing_letters "ab" (stemOfWord "xyz.exe")) ∧
    "xyz.exe" ∉ (([] : List (String × ℝ)).map Prod.fst) :=
  ⟨by decide,
   (C4_missing_letter_gate "ab" [] noRatio noStat "xyz.exe" (by decide)).1 [] rfl⟩

/-! ## Claim C2: the retained group representative -/

theorem c2_eval : postprocess_scoring c2Stat c2Order c2Scores = [c2Answer] := by
  rfl

/-- Claim C2 counterexample: the claim says the retained run count of a
FileIdentity group is the highest among all candidates sharing the
identity. On c2Order both candidates share the identity (1, 1); the
candidate ("q", 5) has run count 5, yet the emitted Answer reports run
count 1 — the loop keeps the first-seen run count, not the maximum. -/
theorem C2_counterexample :
    ¬ (∀ a ∈ postprocess_scoring c2Stat c2Order c2Scores,
        ∀ pr ∈ (alookup c2Order "a").getD [],
          c2Stat pr.1 = c2Stat a.path → pr.2 ≤ a.runs) := by
  intro hcl
  have h5 := hcl c2Answer (by rw [c2_eval]; exact List.mem_singleton.mpr rfl)
    ("q", 5) (by decide) rfl
  simp [c2Answer] at h5

/-- Claim C2 (amended): for every Answer of the deduplicated result
there is a file identity k whose first visit v (in processing order)
supplies the retained run count and the stem score of the combined
weight sqrt(v.runs+1)*sqrt(v.score+1) — the run count is first-seen, not
the group maximum — and the display path is a shortest path string among
the group's paths. -/
theorem C2_group_representative (stat : String → Option (Nat × Nat))
    (order : List (String × List (String × Nat))) (scores : List (String × ℝ))
    (a : Answer) (ha : a ∈ postprocess_scoring stat order scores) :
    ∃ k v, firstVisit stat (visits order scores) k = some v ∧
      a.runs = v.2.1 ∧
      a.score = Real.sqrt ((v.2.1 : ℝ) + 1) * Real.sqrt (v.2.2 + 1) ∧
      a.path ∈ pathsOf stat (visits order scores) k ∧
      ∀ p ∈ pathsOf stat (visits order scores) k, a.path.length ≤ p.length := by
  rcases postprocess_answer_spec stat order scores ha with ⟨k, v, h1, _, h3, h4, h5, h6⟩
  exact ⟨k, v, h1, h3, h4, h5, h6⟩

/-- Witness for the amended C2 on the counterexample input. -/
theorem C2_witness :
    c2Answer ∈ postprocess_scoring c2Stat c2Order c2Scores ∧
    ∃ k v, firstVisit c2Stat (visits c2Order c2Scores) k = some v ∧
      c2Answer.runs = v.2.1 ∧
      c2Answer.score = Real.sqrt ((v.2.1 : ℝ) + 1) * Real.sqrt (v.2.2 + 1) ∧
      c2Answer.path ∈ pathsOf c2Stat (visits c2Order c2Scores) k ∧
      ∀ p ∈ pathsOf c2Stat (visits c2Order c2Scores) k,
        c2Answer.path.length ≤ p.length := by
  have hmem : c2Answer ∈ postprocess_scoring c2Stat c2Order c2Scores := by
    rw [c2_eval]
    exact List.mem_singleton.mpr rfl
  exact ⟨hmem, C2_group_representative c2Stat c2Order c2Scores c2Answer hmem⟩

end Everywox
